import Mathlib

/-!
Shallow embedding of `src/index/update.rs`: the library-index update pass of
a media server.  Filesystem directories are modelled as trees whose entries
are either read errors, regular files (with optional UTF-8 path strings and
an optional tag set standing for the result of `metadata::read`), or
sub-directories.  The record store is a pair of row lists; the
`IndexBuilder` carries its two insert buffers, their capacities, the store,
and a ghost trace recording the order of `push_song` / `push_directory`
calls.
-/

namespace Polaris

/-- Tag set returned by `metadata::read` (external `MetadataReader`). -/
structure Tags where
  title : Option String
  artist : Option String
  album_artist : Option String
  album : Option String
  year : Option Int
  track_number : Option Int
  disc_number : Option Int
  duration : Option Int
deriving DecidableEq, Repr

/-- `NewSong` (update.rs lines 34-48). -/
structure NewSong where
  path : String
  parent : String
  track_number : Option Int
  disc_number : Option Int
  title : Option String
  artist : Option String
  album_artist : Option String
  year : Option Int
  album : Option String
  artwork : Option String
  duration : Option Int
deriving DecidableEq, Repr

/-- `NewDirectory` (update.rs lines 50-60). -/
structure NewDirectory where
  path : String
  parent : Option String
  artist : Option String
  year : Option Int
  album : Option String
  artwork : Option String
  date_added : Int
deriving DecidableEq, Repr

mutual
/-- A filesystem directory: its `to_str` result (`none` models a
non-UTF-8 path), the timestamp obtained from `created().or_else(modified())`
(`none` models a metadata read failure), and the `read_dir` listing. -/
inductive DirTree : Type where
  | node (pathStr : Option String) (created : Option Int) (entries : List DirEntry)

/-- One `read_dir` item: `err` models an `Err` iterator element, `file` a
regular file (name, path string, and `metadata::read` outcome), `dir` a
sub-directory. -/
inductive DirEntry : Type where
  | err : DirEntry
  | file (name : Option String) (pathStr : Option String) (tags : Option Tags) : DirEntry
  | dir (name : Option String) (sub : DirTree) : DirEntry
end

/-- `to_str` of a directory's path. -/
def DirTree.str : DirTree → Option String
  | .node ps _ _ => ps

/-- `file_name().to_str()` of an entry. -/
def entryName : DirEntry → Option String
  | .err => none
  | .file n _ _ => n
  | .dir n _ => n

/-- `path().to_str()` of an entry. -/
def entryPathStr : DirEntry → Option String
  | .err => none
  | .file _ ps _ => ps
  | .dir _ sub => sub.str

/-- The two rows a store holds (`songs` and `directories` tables). -/
structure Store where
  songs : List NewSong
  directories : List NewDirectory
deriving DecidableEq, Repr

/-- Ghost trace element: one `push_song` or `push_directory` call. -/
inductive Rec : Type where
  | song (s : NewSong)
  | dir (d : NewDirectory)
deriving DecidableEq, Repr

/-- `IndexBuilder` (update.rs lines 62-67): the two insert buffers, their
capacities (fixed by `reserve_exact`), the store the flushes insert into,
and a ghost trace of push calls in program order. -/
structure IndexBuilder where
  new_songs : List NewSong
  new_directories : List NewDirectory
  song_capacity : Nat
  directory_capacity : Nat
  store : Store
  trace : List Rec
deriving DecidableEq, Repr

def INDEX_BUILDING_INSERT_BUFFER_SIZE : Nat := 1000
def INDEX_BUILDING_CLEAN_BUFFER_SIZE : Nat := 500

/-- `flush_songs` (lines 85-92): one batched insert, then clear the buffer. -/
def flush_songs (b : IndexBuilder) : IndexBuilder :=
  { b with
    store := { b.store with songs := b.store.songs ++ b.new_songs }
    new_songs := [] }

/-- `flush_directories` (lines 95-102). -/
def flush_directories (b : IndexBuilder) : IndexBuilder :=
  { b with
    store := { b.store with directories := b.store.directories ++ b.new_directories }
    new_directories := [] }

/-- `push_song` (lines 105-111): flush first when the buffer already
reached capacity, then append.  Also records the push on the ghost trace. -/
def push_song (song : NewSong) (b : IndexBuilder) : IndexBuilder :=
  let b := if b.new_songs.length ≥ b.song_capacity then flush_songs b else b
  { b with new_songs := b.new_songs ++ [song], trace := b.trace ++ [.song song] }

/-- `push_directory` (lines 114-120). -/
def push_directory (directory : NewDirectory) (b : IndexBuilder) : IndexBuilder :=
  let b := if b.new_directories.length ≥ b.directory_capacity then flush_directories b else b
  { b with new_directories := b.new_directories ++ [directory], trace := b.trace ++ [.dir directory] }

/-- `get_artwork` (lines 122-132): scan the listing; an `Err` iterator item
propagates (`file?`); the first entry whose (UTF-8) file name matches the
pattern yields its path's `to_str`. -/
def get_artwork (album_art_pattern : String → Bool) : List DirEntry → Except Unit (Option String)
  | [] => .ok none
  | .err :: _ => .error ()
  | e :: rest =>
    match entryName e with
    | some name_string =>
      if album_art_pattern name_string then .ok (entryPathStr e)
      else get_artwork album_art_pattern rest
    | none => get_artwork album_art_pattern rest

/-- `Result::unwrap_or`. -/
def exceptUnwrapOr (r : Except ε α) (d : α) : α :=
  match r with
  | .ok a => a
  | .error _ => d

/-- The per-directory aggregate state (lines 151-156). -/
structure Agg where
  album : Option String
  year : Option Int
  artist : Option String
  inconsistent_album : Bool
  inconsistent_year : Bool
  inconsistent_artist : Bool
deriving DecidableEq, Repr

def Agg.init : Agg :=
  { album := none, year := none, artist := none,
    inconsistent_album := false, inconsistent_year := false, inconsistent_artist := false }

/-- Aggregate update for one successfully tagged file (lines 180-200). -/
def updateAgg (a : Agg) (tags : Tags) : Agg :=
  let a :=
    if tags.year.isSome then
      { a with
        inconsistent_year := a.inconsistent_year || (a.year.isSome && a.year != tags.year)
        year := tags.year }
    else a
  let a :=
    if tags.album.isSome then
      { a with
        inconsistent_album := a.inconsistent_album || (a.album.isSome && a.album != tags.album)
        album := tags.album }
    else a
  if tags.album_artist.isSome then
    { a with
      inconsistent_artist := a.inconsistent_artist || (a.artist.isSome && a.artist != tags.album_artist)
      artist := tags.album_artist }
  else if tags.artist.isSome then
    { a with
      inconsistent_artist := a.inconsistent_artist || (a.artist.isSome && a.artist != tags.artist)
      artist := tags.artist }
  else a

/-- The `NewSong` built at lines 202-214. -/
def mkNewSong (file_path_string path_string : String) (artwork : Option String)
    (tags : Tags) : NewSong :=
  { path := file_path_string
    parent := path_string
    disc_number := tags.disc_number
    track_number := tags.track_number
    title := tags.title
    duration := tags.duration
    artist := tags.artist
    album_artist := tags.album_artist
    album := tags.album
    year := tags.year
    artwork := artwork }

/-- The file half of the entry loop (lines 162-219): stop at the first
`Err` iterator item (`break`), collect nothing for sub-directories here,
skip files whose path is not UTF-8 or whose tags fail to read, and for each
tagged file update the aggregate and `push_song` the built record. -/
def processFiles (artwork : Option String) (path_string : String) :
    List DirEntry → Agg → IndexBuilder → Agg × IndexBuilder
  | [], a, b => (a, b)
  | .err :: _, a, b => (a, b)
  | .dir _ _ :: rest, a, b => processFiles artwork path_string rest a b
  | .file _ fps tgs :: rest, a, b =>
    match fps with
    | none => processFiles artwork path_string rest a b
    | some file_path_string =>
      match tgs with
      | none => processFiles artwork path_string rest a b
      | some tags =>
        let a := updateAgg a tags
        let song := mkNewSong file_path_string path_string artwork tags
        processFiles artwork path_string rest a (push_song song b)

/-- Null out inconsistent aggregates (lines 222-230). -/
def finalizeAgg (a : Agg) : Agg :=
  let a := if a.inconsistent_year then { a with year := none } else a
  let a := if a.inconsistent_album then { a with album := none } else a
  if a.inconsistent_artist then { a with artist := none } else a

/-- The `NewDirectory` built at lines 232-240. -/
def mkNewDirectory (path_string : String) (parent_string : Option String)
    (artwork : Option String) (a : Agg) (created : Int) : NewDirectory :=
  { path := path_string
    parent := parent_string
    artwork := artwork
    album := a.album
    artist := a.artist
    year := a.year
    date_added := created }

mutual
/-- `populate_directory` (lines 135-249).  The sub-directories collected
during the entry loop (all `dir` entries before the first `Err` item) are
visited after the directory's own record is pushed; `populate_subs` walks
that same prefix. -/
def populate_directory (album_art_pattern : String → Bool) (parent : Option String)
    (t : DirTree) (b : IndexBuilder) : Except String IndexBuilder :=
  match t with
  | .node ps cr entries =>
    let artwork := exceptUnwrapOr (get_artwork album_art_pattern entries) none
    let parent_string := parent
    match ps with
    | none => .error "Invalid directory path"
    | some path_string =>
      match cr with
      | none => .error "Failed to read directory metadata"
      | some created =>
        match processFiles artwork path_string entries Agg.init b with
        | (agg, b) =>
          let agg := finalizeAgg agg
          let directory := mkNewDirectory path_string parent_string artwork agg created
          let b := push_directory directory b
          populate_subs album_art_pattern path_string entries b

/-- The recursion of lines 244-246 over the collected sub-directories:
`dir` entries before the first `Err` item, in listing order. -/
def populate_subs (album_art_pattern : String → Bool) (path_string : String) :
    List DirEntry → IndexBuilder → Except String IndexBuilder
  | [], b => .ok b
  | .err :: _, b => .ok b
  | .file _ _ _ :: rest, b => populate_subs album_art_pattern path_string rest b
  | .dir _ sub :: rest, b => do
    let b ← populate_directory album_art_pattern (some path_string) sub b
    populate_subs album_art_pattern path_string rest b
end

/-! ## The full pass: `clean`, `populate`, `update` -/

/-- The environment an update runs against: the mount point trees walked by
`populate`, the `Path::exists` and `real_to_virtual(..).is_ok()` predicates
used by `clean`, and the compiled artwork pattern from the settings row. -/
structure FS where
  mount_points : List DirTree
  path_exists : String → Bool
  real_to_virtual_ok : String → Bool
  album_art_pattern : String → Bool

/-- One bulk delete statement issued by `clean` (ghost trace). -/
inductive CleanOp : Type where
  | delete_songs (chunk : List String)
  | delete_directories (chunk : List String)
deriving DecidableEq, Repr

/-- Fuel-driven splitter behind `listChunks`; the fuel is always at least
the list length, so the middle arm is never reached. -/
def listChunksGo (n : Nat) : Nat → List α → List (List α)
  | _, [] => []
  | 0, l => [l]
  | fuel + 1, x :: xs => (x :: xs.take (n - 1)) :: listChunksGo n fuel (xs.drop (n - 1))

/-- `[..].chunks(n)`: split into consecutive chunks of `n` elements, the
last one possibly shorter (the source only calls it with `n = 500`). -/
def listChunks (n : Nat) (l : List α) : List (List α) :=
  listChunksGo n l.length l

/-- `clean` (lines 253-307): list stored song paths, filter the missing
ones (`!exists || real_to_virtual is_err`), delete them in chunks of
`INDEX_BUILDING_CLEAN_BUFFER_SIZE`; then the same for directories.  Also
returns the ghost list of delete statements in issue order. -/
def clean (fs : FS) (store : Store) : Store × List CleanOp :=
  let all_songs := store.songs.map (·.path)
  let missing_songs := all_songs.filter
    (fun song_path => !(fs.path_exists song_path) || !(fs.real_to_virtual_ok song_path))
  let song_chunks := listChunks INDEX_BUILDING_CLEAN_BUFFER_SIZE missing_songs
  let songs' := song_chunks.foldl
    (fun rows chunk => rows.filter (fun r => !(chunk.contains r.path))) store.songs
  let all_directories := store.directories.map (·.path)
  let missing_directories := all_directories.filter
    (fun directory_path => !(fs.path_exists directory_path) || !(fs.real_to_virtual_ok directory_path))
  let directory_chunks := listChunks INDEX_BUILDING_CLEAN_BUFFER_SIZE missing_directories
  let directories' := directory_chunks.foldl
    (fun rows chunk => rows.filter (fun r => !(chunk.contains r.path))) store.directories
  (⟨songs', directories'⟩,
    song_chunks.map .delete_songs ++ directory_chunks.map .delete_directories)

/-- `populate` (lines 310-327), with the insert buffer capacity as a
parameter: fresh builder, `populate_directory` over every mount point, then
the two final flushes. -/
def populate_with_capacity (cap : Nat) (fs : FS) (store : Store) : Except String Store := do
  let builder : IndexBuilder :=
    { new_songs := [], new_directories := [], song_capacity := cap,
      directory_capacity := cap, store := store, trace := [] }
  let b ← fs.mount_points.foldlM
    (fun b target => populate_directory fs.album_art_pattern none target b) builder
  let b := flush_songs b
  let b := flush_directories b
  .ok b.store

/-- `populate` as in the source: capacity `INDEX_BUILDING_INSERT_BUFFER_SIZE`. -/
def populate (fs : FS) (store : Store) : Except String Store :=
  populate_with_capacity INDEX_BUILDING_INSERT_BUFFER_SIZE fs store

/-- `update` (lines 20-32): `clean` then `populate`. -/
def update (fs : FS) (store : Store) : Except String Store :=
  populate fs (clean fs store).1

/-! ## Pure observation functions used by the theorems -/

/-- Every song the builder has accepted: already flushed rows plus the
pending buffer, in push order. -/
def allSongs (b : IndexBuilder) : List NewSong :=
  b.store.songs ++ b.new_songs

/-- Every directory the builder has accepted. -/
def allDirs (b : IndexBuilder) : List NewDirectory :=
  b.store.directories ++ b.new_directories

/-- Replay one trace element against the builder. -/
def pushRec (b : IndexBuilder) (r : Rec) : IndexBuilder :=
  match r with
  | .song s => push_song s b
  | .dir d => push_directory d b

def pushRecs (b : IndexBuilder) (recs : List Rec) : IndexBuilder :=
  recs.foldl pushRec b

def recsSongs (recs : List Rec) : List NewSong :=
  recs.filterMap (fun r => match r with | .song s => some s | .dir _ => none)

def recsDirs (recs : List Rec) : List NewDirectory :=
  recs.filterMap (fun r => match r with | .song _ => none | .dir d => some d)

/-- The `(path string, tags)` pairs of the files the entry loop actually
processes: the prefix before the first `Err` item, restricted to regular
files with a UTF-8 path and readable tags. -/
def processedFiles : List DirEntry → List (String × Tags)
  | [] => []
  | .err :: _ => []
  | .dir _ _ :: rest => processedFiles rest
  | .file _ none _ :: rest => processedFiles rest
  | .file _ (some _) none :: rest => processedFiles rest
  | .file _ (some fp) (some t) :: rest => (fp, t) :: processedFiles rest

def processedTags (es : List DirEntry) : List Tags :=
  (processedFiles es).map (·.2)

/-- The album values that reach the aggregate. -/
def taggedAlbums (es : List DirEntry) : List String :=
  (processedTags es).filterMap (·.album)

/-- The year values that reach the aggregate. -/
def taggedYears (es : List DirEntry) : List Int :=
  (processedTags es).filterMap (·.year)

/-- The song records the entry loop pushes, in order. -/
def directSongs (artwork : Option String) (path_string : String) (es : List DirEntry) :
    List NewSong :=
  (processedFiles es).map (fun ft => mkNewSong ft.1 path_string artwork ft.2)

/-- One step of the last-seen-wins / inconsistency rule on a single field. -/
def stepVal [BEq α] (s : Option α × Bool) (v : α) : Option α × Bool :=
  (some v, s.2 || (s.1.isSome && s.1 != some v))

/-- The final aggregate a single field reaches from a list of present tag
values: the last value seen, nulled when any step saw a differing value. -/
def aggValOf [BEq α] (l : List α) : Option α :=
  let r := l.foldl stepVal ((none : Option α), false)
  if r.2 then none else r.1

/-- The artist value a file contributes: `album_artist` preferred over
`artist` (lines 192-200). -/
def preferredArtist (tags : Tags) : Option String :=
  match tags.album_artist with
  | some v => some v
  | none => tags.artist

/-- Whether an entry's file name is UTF-8 and matches the pattern. -/
def nameMatches (album_art_pattern : String → Bool) (e : DirEntry) : Bool :=
  match entryName e with
  | some n => album_art_pattern n
  | none => false

/-- The artwork value `populate_directory` computes for a listing. -/
def artworkOf (album_art_pattern : String → Bool) (es : List DirEntry) : Option String :=
  exceptUnwrapOr (get_artwork album_art_pattern es) none

mutual
/-- Pure mirror of `populate_directory`: the push calls it performs, in
order, or the error it aborts with. -/
def collectDir (album_art_pattern : String → Bool) (parent : Option String)
    (t : DirTree) : Except String (List Rec) :=
  match t with
  | .node ps cr entries =>
    let artwork := artworkOf album_art_pattern entries
    match ps with
    | none => .error "Invalid directory path"
    | some path_string =>
      match cr with
      | none => .error "Failed to read directory metadata"
      | some created =>
        let agg := finalizeAgg ((processedTags entries).foldl updateAgg Agg.init)
        let directory := mkNewDirectory path_string parent artwork agg created
        do
          let subRecs ← collectSubs album_art_pattern path_string entries
          .ok ((directSongs artwork path_string entries).map Rec.song
                ++ [Rec.dir directory] ++ subRecs)

/-- Pure mirror of `populate_subs`. -/
def collectSubs (album_art_pattern : String → Bool) (path_string : String) :
    List DirEntry → Except String (List Rec)
  | [] => .ok []
  | .err :: _ => .ok []
  | .file _ _ _ :: rest => collectSubs album_art_pattern path_string rest
  | .dir _ sub :: rest => do
    let r1 ← collectDir album_art_pattern (some path_string) sub
    let r2 ← collectSubs album_art_pattern path_string rest
    .ok (r1 ++ r2)
end

/-- Pure mirror of the mount-point loop of `populate`. -/
def collectMounts (album_art_pattern : String → Bool) : List DirTree → Except String (List Rec)
  | [] => .ok []
  | t :: ts => do
    let r1 ← collectDir album_art_pattern none t
    let r2 ← collectMounts album_art_pattern ts
    .ok (r1 ++ r2)

/-- Replace every sub-directory's subtree by an empty one with the same
path string: what remains is exactly the data of the direct children that
`populate_directory` may consult for the directory's own record. -/
def entryShape : DirEntry → DirEntry
  | .dir n sub => .dir n (.node sub.str none [])
  | e => e

/-! ## Concrete fixtures used by the witness theorems -/

def c4s : NewSong :=
  ⟨"/m/a.mp3", "/m", none, none, none, none, none, none, none, none, none⟩

def c4d : NewDirectory := ⟨"/m", none, none, none, none, none, 0⟩

def c4b : IndexBuilder :=
  { new_songs := [c4s], new_directories := [c4d], song_capacity := 1,
    directory_capacity := 1, store := ⟨[], []⟩, trace := [] }

def wPat : String → Bool := fun s => s == "cover.jpg"

def wTagsA : Tags :=
  ⟨some "T1", some "ArtA", none, some "AlbX", some 2000, some 1, some 1, some 100⟩

def wTagsB : Tags :=
  ⟨some "T2", none, some "AA", some "AlbX", some 2001, some 2, none, some 90⟩

def wB0 : IndexBuilder :=
  { new_songs := [], new_directories := [], song_capacity := 2,
    directory_capacity := 2, store := ⟨[], []⟩, trace := [] }

def wFileA : DirEntry := .file (some "a.mp3") (some "/m/a.mp3") (some wTagsA)

def wFileB : DirEntry := .file (some "b.mp3") (some "/m/b.mp3") (some wTagsB)

def c1es : List DirEntry := [wFileA, wFileB]

def c1tree : DirTree := .node (some "/m") (some 5) c1es

def c1res : IndexBuilder := exceptUnwrapOr (populate_directory wPat none c1tree wB0) wB0

def wFS : FS :=
  { mount_points := [c1tree], path_exists := fun _ => true,
    real_to_virtual_ok := fun _ => true, album_art_pattern := wPat }

def wSt : Store := ⟨[], []⟩

def c5st1 : Store := exceptUnwrapOr (update wFS wSt) wSt

def c6pre : List DirEntry := [wFileA]

def c6post : List DirEntry := [wFileB]

def c7sub1 : DirTree :=
  .node (some "/m/sub") (some 7) [.file (some "c.mp3") (some "/m/sub/c.mp3") (some wTagsB)]

def c7sub2 : DirTree := .node (some "/m/sub") (some 9) []

def c7es1 : List DirEntry := [wFileA, .dir (some "sub") c7sub1]

def c7es2 : List DirEntry := [wFileA, .dir (some "sub") c7sub2]

def c7b1 : IndexBuilder :=
  exceptUnwrapOr (populate_directory wPat none (.node (some "/m") (some 5) c7es1) wB0) wB0

def c7b2 : IndexBuilder :=
  exceptUnwrapOr (populate_directory wPat none (.node (some "/m") (some 5) c7es2) wB0) wB0

def c9cover : DirEntry := .file (some "cover.jpg") (some "/m/cover.jpg") none

def c9es : List DirEntry := [c9cover, wFileA]

def c9tree : DirTree := .node (some "/m") (some 5) c9es

def c9res : IndexBuilder := exceptUnwrapOr (populate_directory wPat none c9tree wB0) wB0

/-! ## Effect lemmas for the push primitives -/

theorem emap_ok (f : α → β) (a : α) : Except.map (ε := ε) f (.ok a) = .ok (f a) := rfl

theorem emap_error (f : α → β) (e : ε) : Except.map (β := β) f (.error e) = .error e := rfl

theorem allSongs_push_song (s : NewSong) (b : IndexBuilder) :
    allSongs (push_song s b) = allSongs b ++ [s] := by
  simp only [push_song, allSongs, flush_songs]
  split <;> simp

theorem allDirs_push_song (s : NewSong) (b : IndexBuilder) :
    allDirs (push_song s b) = allDirs b := by
  simp only [push_song, allDirs, flush_songs]
  split <;> simp

theorem trace_push_song (s : NewSong) (b : IndexBuilder) :
    (push_song s b).trace = b.trace ++ [Rec.song s] := by
  simp only [push_song, flush_songs]
  split <;> simp

theorem allDirs_push_directory (d : NewDirectory) (b : IndexBuilder) :
    allDirs (push_directory d b) = allDirs b ++ [d] := by
  simp only [push_directory, allDirs, flush_directories]
  split <;> simp

theorem allSongs_push_directory (d : NewDirectory) (b : IndexBuilder) :
    allSongs (push_directory d b) = allSongs b := by
  simp only [push_directory, allSongs, flush_directories]
  split <;> simp

theorem trace_push_directory (d : NewDirectory) (b : IndexBuilder) :
    (push_directory d b).trace = b.trace ++ [Rec.dir d] := by
  simp only [push_directory, flush_directories]
  split <;> simp

theorem pushRecs_append (b : IndexBuilder) (r1 r2 : List Rec) :
    pushRecs b (r1 ++ r2) = pushRecs (pushRecs b r1) r2 := by
  simp [pushRecs, List.foldl_append]

theorem pushRecs_song_cons (b : IndexBuilder) (s : NewSong) (rs : List Rec) :
    pushRecs b (Rec.song s :: rs) = pushRecs (push_song s b) rs := rfl

theorem pushRecs_dir_cons (b : IndexBuilder) (d : NewDirectory) (rs : List Rec) :
    pushRecs b (Rec.dir d :: rs) = pushRecs (push_directory d b) rs := rfl

theorem allSongs_pushRecs (recs : List Rec) :
    ∀ b : IndexBuilder, allSongs (pushRecs b recs) = allSongs b ++ recsSongs recs := by
  induction recs with
  | nil => intro b; simp [pushRecs, recsSongs]
  | cons r rs ih =>
    intro b
    cases r with
    | song s =>
      rw [pushRecs_song_cons, ih, allSongs_push_song]
      simp [recsSongs]
    | dir d =>
      rw [pushRecs_dir_cons, ih, allSongs_push_directory]
      simp [recsSongs]

theorem allDirs_pushRecs (recs : List Rec) :
    ∀ b : IndexBuilder, allDirs (pushRecs b recs) = allDirs b ++ recsDirs recs := by
  induction recs with
  | nil => intro b; simp [pushRecs, recsDirs]
  | cons r rs ih =>
    intro b
    cases r with
    | song s =>
      rw [pushRecs_song_cons, ih, allDirs_push_song]
      simp [recsDirs]
    | dir d =>
      rw [pushRecs_dir_cons, ih, allDirs_push_directory]
      simp [recsDirs]

theorem trace_pushRecs (recs : List Rec) :
    ∀ b : IndexBuilder, (pushRecs b recs).trace = b.trace ++ recs := by
  induction recs with
  | nil => intro b; simp [pushRecs]
  | cons r rs ih =>
    intro b
    cases r with
    | song s =>
      rw [pushRecs_song_cons, ih, trace_push_song]
      simp
    | dir d =>
      rw [pushRecs_dir_cons, ih, trace_push_directory]
      simp

/-! ## The entry loop as a pure computation -/

theorem processFiles_eq (artw : Option String) (ps : String) (es : List DirEntry) :
    ∀ (a : Agg) (b : IndexBuilder),
      processFiles artw ps es a b =
        ((processedTags es).foldl updateAgg a,
          pushRecs b ((directSongs artw ps es).map Rec.song)) := by
  induction es with
  | nil => intro a b; rfl
  | cons e rest ih =>
    intro a b
    cases e with
    | err => rfl
    | dir n sub =>
      simpa [processFiles, processedTags, processedFiles, directSongs] using ih a b
    | file n fps tgs =>
      cases fps with
      | none =>
        simpa [processFiles, processedTags, processedFiles, directSongs] using ih a b
      | some fp =>
        cases tgs with
        | none =>
          simpa [processFiles, processedTags, processedFiles, directSongs] using ih a b
        | some t =>
          have h1 : processFiles artw ps (.file n (some fp) (some t) :: rest) a b =
              processFiles artw ps rest (updateAgg a t) (push_song (mkNewSong fp ps artw t) b) := rfl
          have h2 : directSongs artw ps (.file n (some fp) (some t) :: rest) =
              mkNewSong fp ps artw t :: directSongs artw ps rest := rfl
          have h3 : processedTags (.file n (some fp) (some t) :: rest) =
              t :: processedTags rest := rfl
          rw [h1, h2, h3, ih, List.map_cons, List.foldl_cons, pushRecs_song_cons]

/-! ## `populate_directory` refines the pure collector -/

theorem populate_directory_eq_collect (pat : String → Bool) :
    ∀ (par : Option String) (t : DirTree) (b : IndexBuilder),
      populate_directory pat par t b =
        (collectDir pat par t).map (fun recs => pushRecs b recs) := by
  intro par0 t0 b0
  refine populate_directory.induct pat
    (fun par t b => populate_directory pat par t b =
      (collectDir pat par t).map (fun recs => pushRecs b recs))
    (fun p es b => populate_subs pat p es b =
      (collectSubs pat p es).map (fun recs => pushRecs b recs))
    ?_ ?_ ?_ ?_ ?_ ?_ ?_ par0 t0 b0
  · intro par b cr es
    simp [populate_directory, collectDir, emap_error]
  · intro par b es p
    simp [populate_directory, collectDir, emap_error]
  · intro par b es artw pstr p c agg b1 hpf agg2 directory2 b2 ih
    replace hpf : processFiles (exceptUnwrapOr (get_artwork pat es) none) p es Agg.init b
        = (agg, b1) := hpf
    replace ih : populate_subs pat p es
        (push_directory (mkNewDirectory p par (exceptUnwrapOr (get_artwork pat es) none)
          (finalizeAgg agg) c) b1) =
      (collectSubs pat p es).map (fun recs =>
        pushRecs (push_directory (mkNewDirectory p par (exceptUnwrapOr (get_artwork pat es) none)
          (finalizeAgg agg) c) b1) recs) := ih
    show populate_directory pat par (.node (some p) (some c) es) b =
      (collectDir pat par (.node (some p) (some c) es)).map (fun recs => pushRecs b recs)
    rw [populate_directory, hpf]
    have hpf' := processFiles_eq (exceptUnwrapOr (get_artwork pat es) none) p es Agg.init b
    rw [hpf] at hpf'
    have hagg : agg = (processedTags es).foldl updateAgg Agg.init := by
      have h := congrArg Prod.fst hpf'; simpa using h
    have hb1 : b1 = pushRecs b
        ((directSongs (exceptUnwrapOr (get_artwork pat es) none) p es).map Rec.song) := by
      have h := congrArg Prod.snd hpf'; simpa using h
    rw [collectDir]
    simp only [artworkOf]
    cases hsub : collectSubs pat p es with
    | error e =>
      rw [ih, hsub]
      simp [emap_error, Except.bind, bind, Except.map]
    | ok subRecs =>
      rw [ih, hsub]
      simp only [emap_ok, Except.bind, bind, Except.map]
      rw [hb1, hagg]
      rw [pushRecs_append, pushRecs_append]
      rfl
  · intro p b
    simp [populate_subs, collectSubs, pushRecs, emap_ok]
  · intro p tail b
    simp [populate_subs, collectSubs, pushRecs, emap_ok]
  · intro p n fps tgs rest b ih
    simpa [populate_subs, collectSubs] using ih
  · intro p n sub rest b ih ihrest
    rw [populate_subs, ih]
    cases hsub : collectDir pat (some p) sub with
    | error e =>
      rw [collectSubs, hsub]
      simp [emap_error, Except.bind, bind, Except.map]
    | ok r1 =>
      rw [collectSubs, hsub]
      simp only [emap_ok, Except.bind, bind, Except.map]
      rw [ihrest (pushRecs b r1)]
      cases hrest : collectSubs pat p rest with
      | error e => simp [emap_error, Except.map]
      | ok r2 => simp [emap_ok, Except.map, pushRecs_append]

/-! ## Per-field behaviour of the aggregate -/

theorem updateAgg_album_channel (a : Agg) (t : Tags) :
    (updateAgg a t).album = (if t.album.isSome then t.album else a.album) ∧
    (updateAgg a t).inconsistent_album =
      (a.inconsistent_album || (t.album.isSome && a.album.isSome && a.album != t.album)) := by
  cases hy : t.year <;> cases hb : t.album <;> cases haa : t.album_artist <;>
    cases ha : t.artist <;>
    simp [updateAgg, hy, hb, haa, ha, Bool.or_assoc, Bool.and_assoc]

theorem updateAgg_year_channel (a : Agg) (t : Tags) :
    (updateAgg a t).year = (if t.year.isSome then t.year else a.year) ∧
    (updateAgg a t).inconsistent_year =
      (a.inconsistent_year || (t.year.isSome && a.year.isSome && a.year != t.year)) := by
  cases hy : t.year <;> cases hb : t.album <;> cases haa : t.album_artist <;>
    cases ha : t.artist <;>
    simp [updateAgg, hy, hb, haa, ha, Bool.or_assoc, Bool.and_assoc]

theorem updateAgg_artist_channel (a : Agg) (t : Tags) :
    (updateAgg a t).artist =
      (if (preferredArtist t).isSome then preferredArtist t else a.artist) ∧
    (updateAgg a t).inconsistent_artist =
      (a.inconsistent_artist ||
        ((preferredArtist t).isSome && a.artist.isSome && a.artist != preferredArtist t)) := by
  cases hy : t.year <;> cases hb : t.album <;> cases haa : t.album_artist <;>
    cases ha : t.artist <;>
    simp [updateAgg, preferredArtist, hy, hb, haa, ha, Bool.or_assoc, Bool.and_assoc]

theorem foldl_updateAgg_album (ts : List Tags) :
    ∀ a : Agg,
      ((ts.foldl updateAgg a).album, (ts.foldl updateAgg a).inconsistent_album) =
        (ts.filterMap (·.album)).foldl stepVal (a.album, a.inconsistent_album) := by
  induction ts with
  | nil => intro a; simp
  | cons t ts ih =>
    intro a
    rw [List.foldl_cons, ih]
    obtain ⟨h1, h2⟩ := updateAgg_album_channel a t
    cases hb : t.album with
    | none =>
      simp [List.filterMap_cons, hb, h1, h2]
    | some v =>
      simp only [List.filterMap_cons, hb, List.foldl_cons]
      rw [h1, h2]
      simp [hb, stepVal, Bool.and_assoc]

theorem foldl_updateAgg_year (ts : List Tags) :
    ∀ a : Agg,
      ((ts.foldl updateAgg a).year, (ts.foldl updateAgg a).inconsistent_year) =
        (ts.filterMap (·.year)).foldl stepVal (a.year, a.inconsistent_year) := by
  induction ts with
  | nil => intro a; simp
  | cons t ts ih =>
    intro a
    rw [List.foldl_cons, ih]
    obtain ⟨h1, h2⟩ := updateAgg_year_channel a t
    cases hb : t.year with
    | none =>
      simp [List.filterMap_cons, hb, h1, h2]
    | some v =>
      simp only [List.filterMap_cons, hb, List.foldl_cons]
      rw [h1, h2]
      simp [hb, stepVal, Bool.and_assoc]

theorem finalizeAgg_album (a : Agg) :
    (finalizeAgg a).album = (if a.inconsistent_album then none else a.album) := by
  rcases a with ⟨al, yr, ar, ia, iy, iar⟩
  cases ia <;> cases iy <;> cases iar <;> simp [finalizeAgg]

theorem finalizeAgg_year (a : Agg) :
    (finalizeAgg a).year = (if a.inconsistent_year then none else a.year) := by
  rcases a with ⟨al, yr, ar, ia, iy, iar⟩
  cases ia <;> cases iy <;> cases iar <;> simp [finalizeAgg]

theorem finalizeAgg_artist (a : Agg) :
    (finalizeAgg a).artist = (if a.inconsistent_artist then none else a.artist) := by
  rcases a with ⟨al, yr, ar, ia, iy, iar⟩
  cases ia <;> cases iy <;> cases iar <;> simp [finalizeAgg]

/-! ## The last-seen-wins / inconsistency rule on a single value list -/

theorem stepVal_flag_back [BEq α] (l : List α) :
    ∀ s : Option α × Bool, (l.foldl stepVal s).2 = false → s.2 = false := by
  induction l with
  | nil => intro s h; exact h
  | cons v tl ih =>
    intro s h
    rw [List.foldl_cons] at h
    have h2 := ih _ h
    simp [stepVal] at h2
    exact h2.1

theorem stepVal_flag_false_all_eq [BEq α] [LawfulBEq α] (l : List α) :
    ∀ v : α, (l.foldl stepVal (some v, false)).2 = false → ∀ x ∈ l, x = v := by
  induction l with
  | nil => intro v _ x hx; simp at hx
  | cons u tl ih =>
    intro v h x hx
    rw [List.foldl_cons] at h
    have hflag := stepVal_flag_back tl _ h
    have huv : u = v := by
      simp [stepVal] at hflag
      exact hflag.symm
    subst huv
    have hstep : stepVal ((some u : Option α), false) u = (some u, false) := by
      simp [stepVal]
    rw [hstep] at h
    rcases List.mem_cons.mp hx with h1 | h1
    · exact h1
    · exact ih u h x h1

theorem aggValOf_all_eq [BEq α] [LawfulBEq α] (l : List α) (v : α)
    (hne : l ≠ []) (hall : ∀ x ∈ l, x = v) : aggValOf l = some v := by
  have fold_const : ∀ (tl : List α), (∀ x ∈ tl, x = v) →
      tl.foldl stepVal ((some v : Option α), false) = (some v, false) := by
    intro tl
    induction tl with
    | nil => intro _; rfl
    | cons u tl ih =>
      intro hal
      have hu : u = v := hal u (by simp)
      rw [List.foldl_cons]
      have hstep : stepVal ((some v : Option α), false) u = (some v, false) := by
        simp [stepVal, hu]
      rw [hstep]
      exact ih (fun x hx => hal x (by simp [hx]))
  match l, hne with
  | u :: tl, _ =>
    have hu : u = v := hall u (by simp)
    have h0 : stepVal ((none : Option α), false) u = (some v, false) := by
      simp [stepVal, hu]
    rw [aggValOf, List.foldl_cons, h0,
      fold_const tl (fun x hx => hall x (by simp [hx]))]
    simp

theorem aggValOf_of_ne [BEq α] [LawfulBEq α] (l : List α) (x y : α)
    (hx : x ∈ l) (hy : y ∈ l) (hxy : x ≠ y) : aggValOf l = none := by
  rw [aggValOf]
  rcases hflag : (l.foldl stepVal ((none : Option α), false)).2 with _ | _
  · exfalso
    match l, hx with
    | u :: tl, hx =>
      rw [List.foldl_cons] at hflag
      have h0 : stepVal ((none : Option α), false) u = (some u, false) := by
        simp [stepVal]
      rw [h0] at hflag
      have hall := stepVal_flag_false_all_eq tl u hflag
      have hxu : x = u := by
        rcases List.mem_cons.mp hx with h1 | h1
        · exact h1
        · exact hall x h1
      have hyu : y = u := by
        rcases List.mem_cons.mp hy with h1 | h1
        · exact h1
        · exact hall y h1
      exact hxy (hxu.trans hyu.symm)
  · simp

/-! ## Shape of the record list a directory contributes -/

theorem recsDirs_map_song (l : List NewSong) : recsDirs (l.map Rec.song) = [] := by
  induction l with
  | nil => rfl
  | cons s tl _ => simp [recsDirs]

theorem recsSongs_map_song (l : List NewSong) : recsSongs (l.map Rec.song) = l := by
  induction l with
  | nil => rfl
  | cons s tl ih => simpa [recsSongs] using ih

theorem recsSongs_append (r1 r2 : List Rec) :
    recsSongs (r1 ++ r2) = recsSongs r1 ++ recsSongs r2 := by
  simp [recsSongs]

theorem recsDirs_append (r1 r2 : List Rec) :
    recsDirs (r1 ++ r2) = recsDirs r1 ++ recsDirs r2 := by
  simp [recsDirs]

/-! ## Characterizing a successful `populate_directory` run -/

theorem populate_directory_ok (pat : String → Bool) (par : Option String) (t : DirTree)
    (b b' : IndexBuilder) (h : populate_directory pat par t b = .ok b') :
    ∃ recs, collectDir pat par t = .ok recs ∧ b' = pushRecs b recs := by
  rw [populate_directory_eq_collect] at h
  cases hc : collectDir pat par t with
  | error e => rw [hc] at h; simp [Except.map] at h
  | ok recs =>
    rw [hc, emap_ok] at h
    exact ⟨recs, rfl, (Except.ok.injEq _ _ ▸ h).symm⟩

theorem collectDir_node (pat : String → Bool) (par : Option String) (p : String) (c : Int)
    (es : List DirEntry) :
    collectDir pat par (DirTree.node (some p) (some c) es) =
      (collectSubs pat p es).map (fun subRecs =>
        (directSongs (artworkOf pat es) p es).map Rec.song
          ++ Rec.dir (mkNewDirectory p par (artworkOf pat es)
                (finalizeAgg ((processedTags es).foldl updateAgg Agg.init)) c)
            :: subRecs) := by
  rw [collectDir]
  cases hsub : collectSubs pat p es with
  | error e => simp [emap_error, Except.bind, bind, Except.map]
  | ok subRecs => simp [emap_ok, Except.bind, bind, Except.map]

/-- The store after the two final flushes is exactly the accepted rows. -/
theorem store_after_flushes (b : IndexBuilder) :
    (flush_directories (flush_songs b)).store = ⟨allSongs b, allDirs b⟩ := by
  simp [flush_songs, flush_directories, allSongs, allDirs]

/-! ## Chunked deletion equals one filtered pass -/

theorem listChunksGo_flatten (n : Nat) :
    ∀ (fuel : Nat) (l : List α), l.length ≤ fuel → (listChunksGo n fuel l).flatten = l := by
  intro fuel
  induction fuel with
  | zero =>
    intro l hl
    cases l with
    | nil => rfl
    | cons x xs => simp at hl
  | succ fuel ih =>
    intro l hl
    cases l with
    | nil => rfl
    | cons x xs =>
      rw [listChunksGo, List.flatten_cons, ih (xs.drop (n - 1)) ?_]
      · simp [List.take_append_drop]
      · simp only [List.length_cons] at hl
        simp [List.length_drop]
        omega

theorem listChunks_join (n : Nat) (l : List α) : (listChunks n l).flatten = l :=
  listChunksGo_flatten n l.length l le_rfl

theorem foldl_filter_chunks {R : Type} (getp : R → String) (cs : List (List String)) :
    ∀ rows : List R,
      cs.foldl (fun rows chunk => rows.filter (fun r => !(chunk.contains (getp r)))) rows
        = rows.filter (fun r => !(cs.flatten.contains (getp r))) := by
  induction cs with
  | nil => intro rows; simp
  | cons c cs ih =>
    intro rows
    rw [List.foldl_cons, ih]
    rw [List.filter_filter]
    apply List.filter_congr
    intro r _
    simp [List.flatten_cons, Bool.and_comm]

theorem delete_missing_eq_filter {R : Type} (getp : R → String) (keep : String → Bool)
    (rows : List R) :
    (listChunks INDEX_BUILDING_CLEAN_BUFFER_SIZE
        ((rows.map getp).filter (fun p => !(keep p)))).foldl
      (fun rows chunk => rows.filter (fun r => !(chunk.contains (getp r)))) rows
      = rows.filter (fun r => keep (getp r)) := by
  rw [foldl_filter_chunks, listChunks_join]
  apply List.filter_congr
  intro r hr
  cases hk : keep (getp r) <;>
    simp [List.mem_filter, hk, List.mem_map]
  · exact ⟨r, hr, rfl⟩

/-! ## Claim theorems -/

/-- C2: After `clean` succeeds, a stored Song or Directory row is deleted
if and only if its path does not exist on disk or `real_to_virtual` fails
on it; every other row is retained unmodified (the survivors are exactly
the filtered original list, in order), and all song deletions are issued
before all directory deletions. -/
theorem clean_deletes_exactly_missing (fs : FS) (st : Store) :
    (clean fs st).1.songs
        = st.songs.filter (fun r => fs.path_exists r.path && fs.real_to_virtual_ok r.path) ∧
    (clean fs st).1.directories
        = st.directories.filter (fun r => fs.path_exists r.path && fs.real_to_virtual_ok r.path) ∧
    (∀ r : NewSong, r ∈ (clean fs st).1.songs ↔
      (r ∈ st.songs ∧ (fs.path_exists r.path && fs.real_to_virtual_ok r.path) = true)) ∧
    (∀ r : NewDirectory, r ∈ (clean fs st).1.directories ↔
      (r ∈ st.directories ∧ (fs.path_exists r.path && fs.real_to_virtual_ok r.path) = true)) ∧
    (∃ song_chunks directory_chunks : List (List String),
      (clean fs st).2
        = song_chunks.map CleanOp.delete_songs ++ directory_chunks.map CleanOp.delete_directories) := by
  have hs : (clean fs st).1.songs
      = st.songs.filter (fun r => fs.path_exists r.path && fs.real_to_virtual_ok r.path) := by
    show (listChunks INDEX_BUILDING_CLEAN_BUFFER_SIZE
        ((st.songs.map (·.path)).filter
          (fun p => !(fs.path_exists p) || !(fs.real_to_virtual_ok p)))).foldl
        (fun rows chunk => rows.filter (fun r => !(chunk.contains r.path))) st.songs
      = st.songs.filter (fun r => fs.path_exists r.path && fs.real_to_virtual_ok r.path)
    have h := delete_missing_eq_filter (fun r : NewSong => r.path)
      (fun p => fs.path_exists p && fs.real_to_virtual_ok p) st.songs
    simpa using h
  have hd : (clean fs st).1.directories
      = st.directories.filter (fun r => fs.path_exists r.path && fs.real_to_virtual_ok r.path) := by
    show (listChunks INDEX_BUILDING_CLEAN_BUFFER_SIZE
        ((st.directories.map (·.path)).filter
          (fun p => !(fs.path_exists p) || !(fs.real_to_virtual_ok p)))).foldl
        (fun rows chunk => rows.filter (fun r => !(chunk.contains r.path))) st.directories
      = st.directories.filter (fun r => fs.path_exists r.path && fs.real_to_virtual_ok r.path)
    have h := delete_missing_eq_filter (fun r : NewDirectory => r.path)
      (fun p => fs.path_exists p && fs.real_to_virtual_ok p) st.directories
    simpa using h
  refine ⟨hs, hd, ?_, ?_, ?_⟩
  · intro r
    rw [hs, List.mem_filter]
  · intro r
    rw [hd, List.mem_filter]
  · exact ⟨_, _, rfl⟩

/-- C4: `push_song` and `push_directory` flush the buffer first exactly
when it has already reached its capacity and then append the new record;
hence the buffer length never exceeds the capacity, no pushed record is
dropped (the accepted rows grow by exactly the pushed record), and a
successful flush leaves the buffer empty. -/
theorem push_flush_invariant (b : IndexBuilder) (s : NewSong) (d : NewDirectory) :
    (b.new_songs.length < b.song_capacity →
      push_song s b = { b with new_songs := b.new_songs ++ [s], trace := b.trace ++ [Rec.song s] }) ∧
    (b.new_songs.length ≥ b.song_capacity →
      push_song s b = { flush_songs b with new_songs := [s], trace := b.trace ++ [Rec.song s] }) ∧
    (1 ≤ b.song_capacity → b.new_songs.length ≤ b.song_capacity →
      (push_song s b).new_songs.length ≤ b.song_capacity) ∧
    allSongs (push_song s b) = allSongs b ++ [s] ∧
    (flush_songs b).new_songs = [] ∧
    allSongs (flush_songs b) = allSongs b ∧
    (b.new_directories.length < b.directory_capacity →
      push_directory d b
        = { b with new_directories := b.new_directories ++ [d], trace := b.trace ++ [Rec.dir d] }) ∧
    (b.new_directories.length ≥ b.directory_capacity →
      push_directory d b
        = { flush_directories b with new_directories := [d], trace := b.trace ++ [Rec.dir d] }) ∧
    (1 ≤ b.directory_capacity → b.new_directories.length ≤ b.directory_capacity →
      (push_directory d b).new_directories.length ≤ b.directory_capacity) ∧
    allDirs (push_directory d b) = allDirs b ++ [d] ∧
    (flush_directories b).new_directories = [] ∧
    allDirs (flush_directories b) = allDirs b := by
  refine ⟨?_, ?_, ?_, allSongs_push_song s b, rfl, ?_, ?_, ?_, ?_, allDirs_push_directory d b, rfl, ?_⟩
  · intro hlt
    simp only [push_song]
    rw [if_neg (by omega)]
  · intro hge
    simp only [push_song]
    rw [if_pos hge]
    simp [flush_songs]
  · intro hcap hle
    simp only [push_song]
    split
    · simp [flush_songs]; omega
    · simp; omega
  · simp [flush_songs, allSongs]
  · intro hlt
    simp only [push_directory]
    rw [if_neg (by omega)]
  · intro hge
    simp only [push_directory]
    rw [if_pos hge]
    simp [flush_directories]
  · intro hcap hle
    simp only [push_directory]
    split
    · simp [flush_directories]; omega
    · simp; omega
  · simp [flush_directories, allDirs]

/-- C4 witness: a builder with capacity 1 and one buffered song/directory:
pushing flushes first, appends, respects the bound; flushing empties. -/
theorem push_flush_invariant_witness :
    ((c4b.new_songs.length < c4b.song_capacity →
        push_song c4s c4b
          = { c4b with new_songs := c4b.new_songs ++ [c4s], trace := c4b.trace ++ [Rec.song c4s] }) ∧
      (c4b.new_songs.length ≥ c4b.song_capacity →
        push_song c4s c4b
          = { flush_songs c4b with new_songs := [c4s], trace := c4b.trace ++ [Rec.song c4s] }) ∧
      (1 ≤ c4b.song_capacity → c4b.new_songs.length ≤ c4b.song_capacity →
        (push_song c4s c4b).new_songs.length ≤ c4b.song_capacity) ∧
      allSongs (push_song c4s c4b) = allSongs c4b ++ [c4s] ∧
      (flush_songs c4b).new_songs = [] ∧
      allSongs (flush_songs c4b) = allSongs c4b ∧
      (c4b.new_directories.length < c4b.directory_capacity →
        push_directory c4d c4b
          = { c4b with new_directories := c4b.new_directories ++ [c4d], trace := c4b.trace ++ [Rec.dir c4d] }) ∧
      (c4b.new_directories.length ≥ c4b.directory_capacity →
        push_directory c4d c4b
          = { flush_directories c4b with new_directories := [c4d], trace := c4b.trace ++ [Rec.dir c4d] }) ∧
      (1 ≤ c4b.directory_capacity → c4b.new_directories.length ≤ c4b.directory_capacity →
        (push_directory c4d c4b).new_directories.length ≤ c4b.directory_capacity) ∧
      allDirs (push_directory c4d c4b) = allDirs c4b ++ [c4d] ∧
      (flush_directories c4b).new_directories = [] ∧
      allDirs (flush_directories c4b) = allDirs c4b) ∧
    c4b.new_songs.length = 1 ∧ c4b.song_capacity = 1 :=
  ⟨push_flush_invariant c4b c4s c4d, by decide, by decide⟩

/-- C8: for each tagged file, the directory artist aggregate uses
`album_artist` when present and otherwise `artist`; the last-seen /
inconsistency rule is then applied to that chosen value against the
running aggregate value only (whatever field a previous file supplied). -/
theorem artist_prefers_album_artist (a : Agg) (t : Tags) :
    preferredArtist t = (if t.album_artist.isSome then t.album_artist else t.artist) ∧
    (updateAgg a t).artist
      = (if (preferredArtist t).isSome then preferredArtist t else a.artist) ∧
    (updateAgg a t).inconsistent_artist
      = (a.inconsistent_artist ||
          ((preferredArtist t).isSome && a.artist.isSome && a.artist != preferredArtist t)) := by
  obtain ⟨h1, h2⟩ := updateAgg_artist_channel a t
  refine ⟨?_, h1, h2⟩
  cases h : t.album_artist <;> simp [preferredArtist, h]

/-! ## Skipped entries and truncated listings -/

theorem processedFiles_skip (n : Option String) (fps : Option String) (tg : Option Tags)
    (hskip : fps = none ∨ tg = none) (post : List DirEntry) :
    ∀ pre, processedFiles (pre ++ DirEntry.file n fps tg :: post)
      = processedFiles (pre ++ post) := by
  intro pre
  induction pre with
  | nil =>
    rcases hskip with h | h
    · subst h; cases tg <;> simp [processedFiles]
    · subst h; cases fps <;> simp [processedFiles]
  | cons e pre ih =>
    cases e with
    | err => simp [processedFiles]
    | dir m sub => simpa [processedFiles] using ih
    | file m fps2 tg2 =>
      cases fps2 with
      | none => simpa [processedFiles] using ih
      | some fp =>
        cases tg2 with
        | none => simpa [processedFiles] using ih
        | some t => simpa [processedFiles] using ih

theorem processedFiles_trunc (post : List DirEntry) :
    ∀ pre, processedFiles (pre ++ DirEntry.err :: post) = processedFiles pre := by
  intro pre
  induction pre with
  | nil => simp [processedFiles]
  | cons e pre ih =>
    cases e with
    | err => simp [processedFiles]
    | dir m sub => simpa [processedFiles] using ih
    | file m fps2 tg2 =>
      cases fps2 with
      | none => simpa [processedFiles] using ih
      | some fp =>
        cases tg2 with
        | none => simpa [processedFiles] using ih
        | some t => simpa [processedFiles] using ih

theorem collectSubs_skip_file (pat : String → Bool) (p : String) (n fps : Option String)
    (tg : Option Tags) (post : List DirEntry) :
    ∀ pre, collectSubs pat p (pre ++ DirEntry.file n fps tg :: post)
      = collectSubs pat p (pre ++ post) := by
  intro pre
  induction pre with
  | nil => simp [collectSubs]
  | cons e pre ih =>
    cases e with
    | err => simp [collectSubs]
    | file m fps2 tg2 => simpa [collectSubs] using ih
    | dir m sub =>
      simp only [List.cons_append, collectSubs, List.append_eq]
      rw [ih]

theorem collectSubs_trunc (pat : String → Bool) (p : String) (post : List DirEntry) :
    ∀ pre, collectSubs pat p (pre ++ DirEntry.err :: post) = collectSubs pat p pre := by
  intro pre
  induction pre with
  | nil => simp [collectSubs]
  | cons e pre ih =>
    cases e with
    | err => simp [collectSubs]
    | file m fps2 tg2 => simpa [collectSubs] using ih
    | dir m sub =>
      simp only [List.cons_append, collectSubs, List.append_eq]
      rw [ih]

theorem get_artwork_skip_mid (pat : String → Bool) (n fps : Option String) (tg : Option Tags)
    (post : List DirEntry) (hm : nameMatches pat (DirEntry.file n fps tg) = false) :
    ∀ pre, get_artwork pat (pre ++ DirEntry.file n fps tg :: post)
      = get_artwork pat (pre ++ post) := by
  intro pre
  induction pre with
  | nil =>
    cases n with
    | none => simp [get_artwork, entryName]
    | some nm =>
      simp only [nameMatches, entryName] at hm
      simp [get_artwork, entryName, hm]
  | cons e pre ih =>
    cases e with
    | err => simp [get_artwork]
    | file m fps2 tg2 =>
      cases m with
      | none => simpa [get_artwork, entryName] using ih
      | some nm =>
        by_cases hp : pat nm <;> simp [get_artwork, entryName, hp, ih]
    | dir m sub =>
      cases m with
      | none => simpa [get_artwork, entryName] using ih
      | some nm =>
        by_cases hp : pat nm <;> simp [get_artwork, entryName, hp, ih]

theorem artworkOf_trunc (pat : String → Bool) (post : List DirEntry) :
    ∀ pre, artworkOf pat (pre ++ DirEntry.err :: post) = artworkOf pat pre := by
  intro pre
  induction pre with
  | nil => rfl
  | cons e pre ih =>
    cases e with
    | err => rfl
    | file m fps2 tg2 =>
      cases m with
      | none => simpa [artworkOf, get_artwork, entryName] using ih
      | some nm =>
        by_cases hp : pat nm <;>
          simp only [artworkOf, List.cons_append, get_artwork, entryName, hp,
            if_true, if_false] <;>
          first
            | rfl
            | exact ih
    | dir m sub =>
      cases m with
      | none => simpa [artworkOf, get_artwork, entryName] using ih
      | some nm =>
        by_cases hp : pat nm <;>
          simp only [artworkOf, List.cons_append, get_artwork, entryName, hp,
            if_true, if_false] <;>
          first
            | rfl
            | exact ih

/-- C10: a regular file whose path is not valid UTF-8 is silently skipped
by the entry loop — no Song is pushed, the aggregates are untouched, and
the remaining entries are processed as if the file were absent — while a
directory whose own path is not representable fails the whole call with
`Invalid directory path`. -/
theorem non_utf8_paths (artw : Option String) (ps : String)
    (pre post : List DirEntry) (n : Option String) (tg : Option Tags)
    (a : Agg) (b : IndexBuilder)
    (pat : String → Bool) (par : Option String) (cr : Option Int) (es : List DirEntry) :
    processFiles artw ps (pre ++ DirEntry.file n none tg :: post) a b
        = processFiles artw ps (pre ++ post) a b ∧
    populate_directory pat par (DirTree.node none cr es) b
        = .error "Invalid directory path" := by
  constructor
  · rw [processFiles_eq, processFiles_eq]
    have hpf := processedFiles_skip n none tg (Or.inl rfl) post pre
    simp [processedTags, directSongs, hpf]
  · rw [populate_directory]

/-- C6: in the entry loop, a tag-extraction failure on one regular file
only skips that file (provided its name is not the directory's artwork
match, the whole call behaves as if the file were absent), and an
`Err` item from the directory iterator stops the listing there: the call
behaves exactly as if the listing had ended at that point, the directory's
own record still being built from the entries gathered so far. -/
theorem entry_loop_error_tolerance (pat : String → Bool) (par : Option String)
    (ps : Option String) (cr : Option Int) (pre post : List DirEntry)
    (n fps : Option String) (b : IndexBuilder) :
    (∀ (artw : Option String) (qs : String) (a : Agg) (b2 : IndexBuilder),
      processFiles artw qs (pre ++ DirEntry.file n fps none :: post) a b2
        = processFiles artw qs (pre ++ post) a b2) ∧
    (nameMatches pat (DirEntry.file n fps none) = false →
      populate_directory pat par (DirTree.node ps cr (pre ++ DirEntry.file n fps none :: post)) b
        = populate_directory pat par (DirTree.node ps cr (pre ++ post)) b) ∧
    populate_directory pat par (DirTree.node ps cr (pre ++ DirEntry.err :: post)) b
        = populate_directory pat par (DirTree.node ps cr pre) b := by
  refine ⟨?_, ?_, ?_⟩
  · intro artw qs a b2
    rw [processFiles_eq, processFiles_eq]
    have hpf := processedFiles_skip n fps none (Or.inr rfl) post pre
    simp [processedTags, directSongs, hpf]
  · intro hm
    rw [populate_directory_eq_collect, populate_directory_eq_collect]
    have hart : artworkOf pat (pre ++ DirEntry.file n fps none :: post)
        = artworkOf pat (pre ++ post) := by
      rw [artworkOf, artworkOf, get_artwork_skip_mid pat n fps none post hm pre]
    have hpf := processedFiles_skip n fps none (Or.inr rfl) post pre
    cases ps with
    | none => rw [collectDir, collectDir]
    | some p =>
      cases cr with
      | none => rw [collectDir, collectDir]
      | some c =>
        rw [collectDir_node, collectDir_node, hart,
          collectSubs_skip_file pat p n fps none post pre]
        simp [directSongs, processedTags, hpf]
  · rw [populate_directory_eq_collect, populate_directory_eq_collect]
    have hart := artworkOf_trunc pat post pre
    have hpf := processedFiles_trunc post pre
    cases ps with
    | none => rw [collectDir, collectDir]
    | some p =>
      cases cr with
      | none => rw [collectDir, collectDir]
      | some c =>
        rw [collectDir_node, collectDir_node, hart, collectSubs_trunc pat p post pre]
        simp [directSongs, processedTags, hpf]

/-! ## The population pass, capacity-independently -/

theorem foldlM_populate (pat : String → Bool) (ts : List DirTree) :
    ∀ b : IndexBuilder,
      ts.foldlM (fun b target => populate_directory pat none target b) b
        = (collectMounts pat ts).map (fun recs => pushRecs b recs) := by
  induction ts with
  | nil => intro b; simp [List.foldlM, collectMounts, emap_ok, pushRecs]; rfl
  | cons t ts ih =>
    intro b
    rw [List.foldlM_cons, populate_directory_eq_collect]
    cases ht : collectDir pat none t with
    | error e =>
      rw [collectMounts, ht]
      simp [emap_error, Except.bind, bind, Except.map]
    | ok r1 =>
      rw [collectMounts, ht]
      simp only [emap_ok, Except.bind, bind, Except.map]
      rw [ih (pushRecs b r1)]
      cases hrest : collectMounts pat ts with
      | error e => simp [emap_error, Except.map]
      | ok r2 => simp [emap_ok, Except.map, pushRecs_append]

theorem populate_with_capacity_eq (cap : Nat) (fs : FS) (st : Store) :
    populate_with_capacity cap fs st
      = (collectMounts fs.album_art_pattern fs.mount_points).map (fun recs =>
          ⟨st.songs ++ recsSongs recs, st.directories ++ recsDirs recs⟩) := by
  rw [populate_with_capacity]
  rw [foldlM_populate]
  cases hm : collectMounts fs.album_art_pattern fs.mount_points with
  | error e => simp [emap_error, Except.bind, bind, Except.map]
  | ok recs =>
    simp only [emap_ok, Except.bind, bind, Except.map]
    rw [store_after_flushes]
    rw [allSongs_pushRecs, allDirs_pushRecs]
    simp [allSongs, allDirs]

/-- C3: for any insert-buffer capacity `C ≥ 1`, a population pass produces
exactly the same persisted store as a pass with capacity 1 (and the pass
run with the source's capacity of 1000 likewise): capacity affects only
batching, never which records are persisted. -/
theorem capacity_does_not_change_persisted (C : Nat) (fs : FS) (st : Store)
    (h : 1 ≤ C) :
    populate_with_capacity C fs st = populate_with_capacity 1 fs st ∧
    populate fs st = populate_with_capacity 1 fs st := by
  refine ⟨?_, ?_⟩
  · rw [populate_with_capacity_eq, populate_with_capacity_eq]
  · rw [populate, populate_with_capacity_eq, populate_with_capacity_eq]

/-! ## The directory record's aggregate fields -/

theorem dirAgg_album (es : List DirEntry) :
    (finalizeAgg ((processedTags es).foldl updateAgg Agg.init)).album
      = aggValOf (taggedAlbums es) := by
  rw [finalizeAgg_album]
  have h := foldl_updateAgg_album (processedTags es) Agg.init
  have h1 := congrArg Prod.fst h
  have h2 := congrArg Prod.snd h
  simp only at h1 h2
  rw [aggValOf]
  have hinit : (Agg.init.album, Agg.init.inconsistent_album)
      = ((none : Option String), false) := rfl
  rw [show Agg.init.album = (none : Option String) from rfl,
    show Agg.init.inconsistent_album = false from rfl] at h1 h2
  rw [h1, h2]
  rfl

theorem dirAgg_year (es : List DirEntry) :
    (finalizeAgg ((processedTags es).foldl updateAgg Agg.init)).year
      = aggValOf (taggedYears es) := by
  rw [finalizeAgg_year]
  have h := foldl_updateAgg_year (processedTags es) Agg.init
  have h1 := congrArg Prod.fst h
  have h2 := congrArg Prod.snd h
  simp only at h1 h2
  rw [aggValOf]
  rw [show Agg.init.year = (none : Option Int) from rfl,
    show Agg.init.inconsistent_year = false from rfl] at h1 h2
  rw [h1, h2]
  rfl

theorem recsDirs_dir_cons (d : NewDirectory) (l : List Rec) :
    recsDirs (Rec.dir d :: l) = d :: recsDirs l := by
  simp [recsDirs]

theorem recsSongs_dir_cons (d : NewDirectory) (l : List Rec) :
    recsSongs (Rec.dir d :: l) = recsSongs l := by
  simp [recsSongs]

/-- C1: the Directory record pushed for a directory (the first directory
record the call enqueues) carries as `album` (resp. `year`) the
last-seen-wins aggregate of the album (resp. year) values of the tagged
direct child files only — so it equals the common value whenever all such
files agree, and is `none` whenever two of them differ; files lacking the
tag contribute nothing to `taggedAlbums`/`taggedYears` and so never affect
the aggregate. -/
theorem directory_album_year_aggregate (pat : String → Bool) (par : Option String)
    (p : String) (c : Int) (es : List DirEntry) (b b' : IndexBuilder)
    (h : populate_directory pat par (DirTree.node (some p) (some c) es) b = .ok b') :
    ∃ d rest, allDirs b' = allDirs b ++ d :: rest ∧ d.path = p ∧
      d.album = aggValOf (taggedAlbums es) ∧
      d.year = aggValOf (taggedYears es) ∧
      (∀ v, taggedAlbums es ≠ [] → (∀ x ∈ taggedAlbums es, x = v) → d.album = some v) ∧
      (∀ x ∈ taggedAlbums es, ∀ y ∈ taggedAlbums es, x ≠ y → d.album = none) ∧
      (∀ v, taggedYears es ≠ [] → (∀ x ∈ taggedYears es, x = v) → d.year = some v) ∧
      (∀ x ∈ taggedYears es, ∀ y ∈ taggedYears es, x ≠ y → d.year = none) := by
  obtain ⟨recs, hcol, hb'⟩ := populate_directory_ok pat par _ b b' h
  rw [collectDir_node] at hcol
  cases hsub : collectSubs pat p es with
  | error e => rw [hsub, emap_error] at hcol; cases hcol
  | ok subRecs =>
    rw [hsub, emap_ok, Except.ok.injEq] at hcol
    subst hcol
    subst hb'
    rw [allDirs_pushRecs, recsDirs_append, recsDirs_map_song, recsDirs_dir_cons]
    refine ⟨mkNewDirectory p par (artworkOf pat es)
        (finalizeAgg ((processedTags es).foldl updateAgg Agg.init)) c,
      recsDirs subRecs, by simp, rfl, ?_, ?_, ?_, ?_, ?_, ?_⟩
    · exact dirAgg_album es
    · exact dirAgg_year es
    · intro v hne hall
      rw [show (mkNewDirectory p par (artworkOf pat es)
          (finalizeAgg ((processedTags es).foldl updateAgg Agg.init)) c).album
        = (finalizeAgg ((processedTags es).foldl updateAgg Agg.init)).album from rfl,
        dirAgg_album es]
      exact aggValOf_all_eq _ v hne hall
    · intro x hx y hy hxy
      rw [show (mkNewDirectory p par (artworkOf pat es)
          (finalizeAgg ((processedTags es).foldl updateAgg Agg.init)) c).album
        = (finalizeAgg ((processedTags es).foldl updateAgg Agg.init)).album from rfl,
        dirAgg_album es]
      exact aggValOf_of_ne _ x y hx hy hxy
    · intro v hne hall
      rw [show (mkNewDirectory p par (artworkOf pat es)
          (finalizeAgg ((processedTags es).foldl updateAgg Agg.init)) c).year
        = (finalizeAgg ((processedTags es).foldl updateAgg Agg.init)).year from rfl,
        dirAgg_year es]
      exact aggValOf_all_eq _ v hne hall
    · intro x hx y hy hxy
      rw [show (mkNewDirectory p par (artworkOf pat es)
          (finalizeAgg ((processedTags es).foldl updateAgg Agg.init)) c).year
        = (finalizeAgg ((processedTags es).foldl updateAgg Agg.init)).year from rfl,
        dirAgg_year es]
      exact aggValOf_of_ne _ x y hx hy hxy

/-! ## Artwork location -/

theorem artworkOf_skip_head (pat : String → Bool) (e : DirEntry) (l : List DirEntry)
    (hne : e ≠ DirEntry.err) (hm : nameMatches pat e = false) :
    artworkOf pat (e :: l) = artworkOf pat l := by
  cases e with
  | err => exact absurd rfl hne
  | file n fps tg =>
    cases n with
    | none => rfl
    | some nm =>
      simp only [nameMatches, entryName] at hm
      simp [artworkOf, get_artwork, entryName, hm]
  | dir n sub =>
    cases n with
    | none => rfl
    | some nm =>
      simp only [nameMatches, entryName] at hm
      simp [artworkOf, get_artwork, entryName, hm]

theorem artworkOf_head_match (pat : String → Bool) (e : DirEntry) (l : List DirEntry)
    (hm : nameMatches pat e = true) :
    artworkOf pat (e :: l) = entryPathStr e := by
  cases e with
  | err => simp [nameMatches, entryName] at hm
  | file n fps tg =>
    cases n with
    | none => simp [nameMatches, entryName] at hm
    | some nm =>
      simp only [nameMatches, entryName] at hm
      simp [artworkOf, get_artwork, entryName, hm, exceptUnwrapOr]
  | dir n sub =>
    cases n with
    | none => simp [nameMatches, entryName] at hm
    | some nm =>
      simp only [nameMatches, entryName] at hm
      simp [artworkOf, get_artwork, entryName, hm, exceptUnwrapOr]

theorem artworkOf_no_match (pat : String → Bool) (es : List DirEntry)
    (hall : ∀ e ∈ es, nameMatches pat e = false) : artworkOf pat es = none := by
  induction es with
  | nil => rfl
  | cons e l ih =>
    by_cases herr : e = DirEntry.err
    · subst herr; rfl
    · rw [artworkOf_skip_head pat e l herr (hall e (by simp))]
      exact ih (fun e2 h2 => hall e2 (by simp [h2]))

theorem artworkOf_first_match (pat : String → Bool) (e : DirEntry) (post : List DirEntry) :
    ∀ pre, DirEntry.err ∉ pre → (∀ e2 ∈ pre, nameMatches pat e2 = false) →
      nameMatches pat e = true →
      artworkOf pat (pre ++ e :: post) = entryPathStr e := by
  intro pre
  induction pre with
  | nil => intro _ _ hm; exact artworkOf_head_match pat e post hm
  | cons e2 pre ih =>
    intro herr hpre hm
    rw [List.cons_append,
      artworkOf_skip_head pat e2 _ (by intro hc; exact herr (by simp [hc]))
        (hpre e2 (by simp))]
    exact ih (fun hc => herr (by simp [hc])) (fun x hx => hpre x (by simp [hx])) hm

/-- C9: every Song pushed for a directory's direct files carries the
directory's located artwork (and that directory as parent), regardless of
the file's own tags; the located artwork is the path of the first listed
entry whose file name matches the pattern, and is absent when no entry
matches (an `Err` listing item has no name and so never matches). -/
theorem songs_inherit_directory_artwork (pat : String → Bool) (par : Option String)
    (p : String) (c : Int) (es : List DirEntry) (b b' : IndexBuilder)
    (h : populate_directory pat par (DirTree.node (some p) (some c) es) b = .ok b') :
    (∃ subSongs, allSongs b' = allSongs b ++ directSongs (artworkOf pat es) p es ++ subSongs) ∧
    (∀ s ∈ directSongs (artworkOf pat es) p es,
      s.artwork = artworkOf pat es ∧ s.parent = p) ∧
    ((∀ e ∈ es, nameMatches pat e = false) → artworkOf pat es = none) ∧
    (∀ (pre : List DirEntry) (e : DirEntry) (post : List DirEntry),
      es = pre ++ e :: post → DirEntry.err ∉ pre →
      (∀ e2 ∈ pre, nameMatches pat e2 = false) → nameMatches pat e = true →
      artworkOf pat es = entryPathStr e) := by
  refine ⟨?_, ?_, artworkOf_no_match pat es, ?_⟩
  · obtain ⟨recs, hcol, hb'⟩ := populate_directory_ok pat par _ b b' h
    rw [collectDir_node] at hcol
    cases hsub : collectSubs pat p es with
    | error e => rw [hsub, emap_error] at hcol; cases hcol
    | ok subRecs =>
      rw [hsub, emap_ok, Except.ok.injEq] at hcol
      subst hcol
      subst hb'
      rw [allSongs_pushRecs, recsSongs_append, recsSongs_map_song, recsSongs_dir_cons]
      exact ⟨recsSongs subRecs, by simp⟩
  · intro s hs
    rw [directSongs] at hs
    obtain ⟨ft, _, hft⟩ := List.mem_map.mp hs
    subst hft
    exact ⟨rfl, rfl⟩
  · intro pre e post hes herr hpre hm
    rw [hes]
    exact artworkOf_first_match pat e post pre herr hpre hm

/-! ## Only the direct children shape a directory's own record -/

theorem entryName_shape (e : DirEntry) : entryName (entryShape e) = entryName e := by
  cases e <;> rfl

theorem entryPathStr_shape (e : DirEntry) : entryPathStr (entryShape e) = entryPathStr e := by
  cases e with
  | err => rfl
  | file n fps tg => rfl
  | dir n sub => cases sub; rfl

theorem processedFiles_shape (es1 : List DirEntry) :
    ∀ es2, es1.map entryShape = es2.map entryShape →
      processedFiles es1 = processedFiles es2 := by
  induction es1 with
  | nil =>
    intro es2 h
    cases es2 with
    | nil => rfl
    | cons e t => simp at h
  | cons e1 t1 ih =>
    intro es2 h
    cases es2 with
    | nil => simp at h
    | cons e2 t2 =>
      simp only [List.map_cons, List.cons.injEq] at h
      obtain ⟨he, ht⟩ := h
      cases e1 with
      | err =>
        cases e2 with
        | err => simp [processedFiles]
        | file n fps tg => simp [entryShape] at he
        | dir n sub => simp [entryShape] at he
      | file n1 fps1 tg1 =>
        cases e2 with
        | err => simp [entryShape] at he
        | dir n sub => simp [entryShape] at he
        | file n2 fps2 tg2 =>
          simp only [entryShape, DirEntry.file.injEq] at he
          obtain ⟨hn, hf, hg⟩ := he
          subst hn; subst hf; subst hg
          cases fps1 with
          | none => simpa [processedFiles] using ih t2 ht
          | some fp =>
            cases tg1 with
            | none => simpa [processedFiles] using ih t2 ht
            | some t => simp [processedFiles, ih t2 ht]
      | dir n1 sub1 =>
        cases e2 with
        | err => simp [entryShape] at he
        | file n fps tg => simp [entryShape] at he
        | dir n2 sub2 => simpa [processedFiles] using ih t2 ht

theorem get_artwork_shape (pat : String → Bool) (es1 : List DirEntry) :
    ∀ es2, es1.map entryShape = es2.map entryShape →
      get_artwork pat es1 = get_artwork pat es2 := by
  induction es1 with
  | nil =>
    intro es2 h
    cases es2 with
    | nil => rfl
    | cons e t => simp at h
  | cons e1 t1 ih =>
    intro es2 h
    cases es2 with
    | nil => simp at h
    | cons e2 t2 =>
      simp only [List.map_cons, List.cons.injEq] at h
      obtain ⟨he, ht⟩ := h
      have hname : entryName e1 = entryName e2 := by
        rw [← entryName_shape e1, he, entryName_shape]
      have hpath : entryPathStr e1 = entryPathStr e2 := by
        rw [← entryPathStr_shape e1, he, entryPathStr_shape]
      have herr : e1 = DirEntry.err → e2 = DirEntry.err := by
        intro h1; subst h1
        cases e2 with
        | err => rfl
        | file n fps tg => simp [entryShape] at he
        | dir n sub => simp [entryShape] at he
      have herr2 : e2 = DirEntry.err → e1 = DirEntry.err := by
        intro h2; subst h2
        cases e1 with
        | err => rfl
        | file n fps tg => simp [entryShape] at he
        | dir n sub => simp [entryShape] at he
      by_cases h1 : e1 = DirEntry.err
      · rw [h1, herr h1]
        rfl
      · have h2 : e2 ≠ DirEntry.err := fun hc => h1 (herr2 hc)
        have hga1 : get_artwork pat (e1 :: t1)
            = (match entryName e1 with
              | some nm => if pat nm then Except.ok (entryPathStr e1)
                  else get_artwork pat t1
              | none => get_artwork pat t1) := by
          cases e1 with
          | err => exact absurd rfl h1
          | file n fps tg => rfl
          | dir n sub => rfl
        have hga2 : get_artwork pat (e2 :: t2)
            = (match entryName e2 with
              | some nm => if pat nm then Except.ok (entryPathStr e2)
                  else get_artwork pat t2
              | none => get_artwork pat t2) := by
          cases e2 with
          | err => exact absurd rfl h2
          | file n fps tg => rfl
          | dir n sub => rfl
        rw [hga1, hga2, ← hname, ← hpath]
        cases entryName e1 with
        | none => exact ih t2 ht
        | some nm =>
          by_cases hp : pat nm
          · simp [hp]
          · simp [hp]
            exact ih t2 ht

/-- C7: runs on two listings that agree on their direct children (same
files, same read errors, same sub-directory names and paths — sub-tree
contents free) push the same direct Song records and the same Directory
record for the directory itself, and that Directory record is pushed
before every record produced by recursing into the sub-directories. -/
theorem two_phase_direct_children_only (pat : String → Bool) (par : Option String)
    (p : String) (c : Int) (es1 es2 : List DirEntry) (b b1 b2 : IndexBuilder)
    (h1 : populate_directory pat par (DirTree.node (some p) (some c) es1) b = .ok b1)
    (h2 : populate_directory pat par (DirTree.node (some p) (some c) es2) b = .ok b2)
    (hsh : es1.map entryShape = es2.map entryShape) :
    ∃ songs d sub1 sub2,
      songs = directSongs (artworkOf pat es1) p es1 ∧
      d = mkNewDirectory p par (artworkOf pat es1)
            (finalizeAgg ((processedTags es1).foldl updateAgg Agg.init)) c ∧
      b1.trace = b.trace ++ songs.map Rec.song ++ Rec.dir d :: sub1 ∧
      b2.trace = b.trace ++ songs.map Rec.song ++ Rec.dir d :: sub2 := by
  have hart : artworkOf pat es1 = artworkOf pat es2 := by
    rw [artworkOf, artworkOf, get_artwork_shape pat es1 es2 hsh]
  have hpf : processedFiles es1 = processedFiles es2 := processedFiles_shape es1 es2 hsh
  obtain ⟨recs1, hcol1, hb1⟩ := populate_directory_ok pat par _ b b1 h1
  obtain ⟨recs2, hcol2, hb2⟩ := populate_directory_ok pat par _ b b2 h2
  rw [collectDir_node] at hcol1 hcol2
  cases hsub1 : collectSubs pat p es1 with
  | error e => rw [hsub1, emap_error] at hcol1; cases hcol1
  | ok subRecs1 =>
    cases hsub2 : collectSubs pat p es2 with
    | error e => rw [hsub2, emap_error] at hcol2; cases hcol2
    | ok subRecs2 =>
      rw [hsub1, emap_ok, Except.ok.injEq] at hcol1
      rw [hsub2, emap_ok, Except.ok.injEq] at hcol2
      subst hcol1; subst hcol2; subst hb1; subst hb2
      refine ⟨directSongs (artworkOf pat es1) p es1,
        mkNewDirectory p par (artworkOf pat es1)
          (finalizeAgg ((processedTags es1).foldl updateAgg Agg.init)) c,
        subRecs1, subRecs2, rfl, rfl, ?_, ?_⟩
      · rw [trace_pushRecs]
        simp [List.append_assoc]
      · rw [trace_pushRecs]
        rw [show directSongs (artworkOf pat es2) p es2
            = directSongs (artworkOf pat es1) p es1 by
          rw [directSongs, directSongs, hart, hpf]]
        rw [show processedTags es2 = processedTags es1 by
          rw [processedTags, processedTags, hpf]]
        rw [← hart]
        simp [List.append_assoc]

/-! ## Idempotence of update -/

/-- C5: if `update` succeeds on a store, and the filesystem is unchanged —
in particular every path it just stored still exists and still resolves
through the VFS — then a second `update` succeeds and leaves the stored
Song and Directory sets (memberships, hence paths and field values)
exactly as after the first run. -/
theorem update_idempotent (fs : FS) (st st1 : Store)
    (h1 : update fs st = .ok st1)
    (hs : ∀ r ∈ st1.songs, (fs.path_exists r.path && fs.real_to_virtual_ok r.path) = true)
    (hd : ∀ r ∈ st1.directories,
      (fs.path_exists r.path && fs.real_to_virtual_ok r.path) = true) :
    ∃ st2, update fs st1 = .ok st2 ∧
      (∀ r : NewSong, r ∈ st2.songs ↔ r ∈ st1.songs) ∧
      (∀ r : NewDirectory, r ∈ st2.directories ↔ r ∈ st1.directories) := by
  rw [update, populate, populate_with_capacity_eq] at h1
  cases hm : collectMounts fs.album_art_pattern fs.mount_points with
  | error e => rw [hm, emap_error] at h1; cases h1
  | ok recs =>
    rw [hm, emap_ok, Except.ok.injEq] at h1
    have hclean1 : (clean fs st1).1 = st1 := by
      obtain ⟨hcs, hcd, _, _, _⟩ := clean_deletes_exactly_missing fs st1
      have hcs' : st1.songs.filter
          (fun r => fs.path_exists r.path && fs.real_to_virtual_ok r.path) = st1.songs :=
        List.filter_eq_self.mpr hs
      have hcd' : st1.directories.filter
          (fun r => fs.path_exists r.path && fs.real_to_virtual_ok r.path) = st1.directories :=
        List.filter_eq_self.mpr hd
      cases hcln : (clean fs st1).1 with
      | mk cs cd =>
        rw [hcln] at hcs hcd
        simp only at hcs hcd
        rw [hcs, hcd, hcs', hcd']
    have hrun2 : update fs st1
        = .ok ⟨st1.songs ++ recsSongs recs, st1.directories ++ recsDirs recs⟩ := by
      rw [update, hclean1, populate, populate_with_capacity_eq, hm, emap_ok]
    have hsongs1 : st1.songs = (clean fs st).1.songs ++ recsSongs recs := by
      rw [← h1]
    have hdirs1 : st1.directories = (clean fs st).1.directories ++ recsDirs recs := by
      rw [← h1]
    refine ⟨_, hrun2, ?_, ?_⟩
    · intro r
      constructor
      · intro hr
        rcases List.mem_append.mp hr with hr1 | hr1
        · exact hr1
        · rw [hsongs1]
          exact List.mem_append.mpr (Or.inr hr1)
      · intro hr
        exact List.mem_append.mpr (Or.inl hr)
    · intro r
      constructor
      · intro hr
        rcases List.mem_append.mp hr with hr1 | hr1
        · exact hr1
        · rw [hdirs1]
          exact List.mem_append.mpr (Or.inr hr1)
      · intro hr
        exact List.mem_append.mpr (Or.inl hr)

/-! ## Witnesses -/

/-- C1 witness: two files agreeing on album `AlbX` but with years 2000 and
2001 — the pushed Directory record for `/m` gets `album = some "AlbX"` and
`year = none`. -/
theorem directory_album_year_aggregate_witness :
    (populate_directory wPat none (DirTree.node (some "/m") (some 5) c1es) wB0
      = .ok c1res) ∧
    (∃ d rest, allDirs c1res = allDirs wB0 ++ d :: rest ∧ d.path = "/m" ∧
      d.album = aggValOf (taggedAlbums c1es) ∧
      d.year = aggValOf (taggedYears c1es) ∧
      (∀ v, taggedAlbums c1es ≠ [] → (∀ x ∈ taggedAlbums c1es, x = v) → d.album = some v) ∧
      (∀ x ∈ taggedAlbums c1es, ∀ y ∈ taggedAlbums c1es, x ≠ y → d.album = none) ∧
      (∀ v, taggedYears c1es ≠ [] → (∀ x ∈ taggedYears c1es, x = v) → d.year = some v) ∧
      (∀ x ∈ taggedYears c1es, ∀ y ∈ taggedYears c1es, x ≠ y → d.year = none)) :=
  ⟨rfl, directory_album_year_aggregate wPat none "/m" 5 c1es wB0 c1res rfl⟩

/-- C3 witness at capacity 3. -/
theorem capacity_does_not_change_persisted_witness :
    1 ≤ 3 ∧
    (populate_with_capacity 3 wFS wSt = populate_with_capacity 1 wFS wSt ∧
      populate wFS wSt = populate_with_capacity 1 wFS wSt) :=
  ⟨by decide, capacity_does_not_change_persisted 3 wFS wSt (by decide)⟩

/-- C5 witness: a successful `update` over one mount point, all stored
paths still valid; the second run changes no membership. -/
theorem update_idempotent_witness :
    (update wFS wSt = .ok c5st1) ∧
    (∃ st2, update wFS c5st1 = .ok st2 ∧
      (∀ r : NewSong, r ∈ st2.songs ↔ r ∈ c5st1.songs) ∧
      (∀ r : NewDirectory, r ∈ st2.directories ↔ r ∈ c5st1.directories)) :=
  ⟨rfl, update_idempotent wFS wSt c5st1 rfl (by decide) (by decide)⟩

/-- C6 witness: a file whose tags fail to read (and whose name is not the
artwork pattern) is dropped without affecting the rest of the run; an
`Err` listing item truncates the directory's listing. -/
theorem entry_loop_error_tolerance_witness :
    nameMatches wPat (DirEntry.file (some "x.mp3") (some "/m/x.mp3") none) = false ∧
    (populate_directory wPat none
        (DirTree.node (some "/m") (some 5)
          (c6pre ++ DirEntry.file (some "x.mp3") (some "/m/x.mp3") none :: c6post)) wB0
      = populate_directory wPat none (DirTree.node (some "/m") (some 5) (c6pre ++ c6post)) wB0) ∧
    (populate_directory wPat none
        (DirTree.node (some "/m") (some 5) (c6pre ++ DirEntry.err :: c6post)) wB0
      = populate_directory wPat none (DirTree.node (some "/m") (some 5) c6pre) wB0) :=
  ⟨by decide,
    (entry_loop_error_tolerance wPat none (some "/m") (some 5) c6pre c6post
      (some "x.mp3") (some "/m/x.mp3") wB0).2.1 (by decide),
    (entry_loop_error_tolerance wPat none (some "/m") (some 5) c6pre c6post
      (some "x.mp3") (some "/m/x.mp3") wB0).2.2⟩

/-- C7 witness: two listings identical in their direct children but with
different sub-directory contents push the same direct songs and the same
directory record, before any sub-directory records. -/
theorem two_phase_direct_children_only_witness :
    (populate_directory wPat none (DirTree.node (some "/m") (some 5) c7es1) wB0 = .ok c7b1) ∧
    (populate_directory wPat none (DirTree.node (some "/m") (some 5) c7es2) wB0 = .ok c7b2) ∧
    c7es1.map entryShape = c7es2.map entryShape ∧
    (∃ songs d sub1 sub2,
      songs = directSongs (artworkOf wPat c7es1) "/m" c7es1 ∧
      d = mkNewDirectory "/m" none (artworkOf wPat c7es1)
            (finalizeAgg ((processedTags c7es1).foldl updateAgg Agg.init)) 5 ∧
      c7b1.trace = wB0.trace ++ songs.map Rec.song ++ Rec.dir d :: sub1 ∧
      c7b2.trace = wB0.trace ++ songs.map Rec.song ++ Rec.dir d :: sub2) :=
  ⟨rfl, rfl, rfl,
    two_phase_direct_children_only wPat none "/m" 5 c7es1 c7es2 wB0 c7b1 c7b2 rfl rfl rfl⟩

/-- C9 witness: a directory holding `cover.jpg` and one tagged song; the
song record inherits `/m/cover.jpg` as artwork. -/
theorem songs_inherit_directory_artwork_witness :
    (populate_directory wPat none (DirTree.node (some "/m") (some 5) c9es) wB0 = .ok c9res) ∧
    ((∃ subSongs, allSongs c9res
        = allSongs wB0 ++ directSongs (artworkOf wPat c9es) "/m" c9es ++ subSongs) ∧
      (∀ s ∈ directSongs (artworkOf wPat c9es) "/m" c9es,
        s.artwork = artworkOf wPat c9es ∧ s.parent = "/m") ∧
      ((∀ e ∈ c9es, nameMatches wPat e = false) → artworkOf wPat c9es = none) ∧
      (∀ (pre : List DirEntry) (e : DirEntry) (post : List DirEntry),
        c9es = pre ++ e :: post → DirEntry.err ∉ pre →
        (∀ e2 ∈ pre, nameMatches wPat e2 = false) → nameMatches wPat e = true →
        artworkOf wPat c9es = entryPathStr e)) :=
  ⟨rfl, songs_inherit_directory_artwork wPat none "/m" 5 c9es wB0 c9res rfl⟩

end Polaris
